import Mathlib

/-!
Verification of the region-specification resolver described by the design
document of the Mapping Earth Surface scripts.  The repository itself only
exercises the resolver through `fig.coast(region=...)` call sites, so the
resolver is modelled here from the specification text, while the point-data
region computation (`region = [lon.min()-1, lon.max()+1, lat.min()-1,
lat.max()+1]`) is translated directly from the script.
-/

/-- Modelled from the spec: the normalized bounding box, four ordered numeric
bounds west/east/south/north in degrees.  The resolver itself is not present
in the repository sources (they only call the external plotting library), so
this data model follows section 3 of the specification. -/
structure BoundingBox where
  west : ℚ
  east : ℚ
  south : ℚ
  north : ℚ
deriving DecidableEq

/-- Modelled from the spec: the two error kinds of the resolver, section 7. -/
inductive ResolveError where
  | invalidRegion (msg : String)
  | unknownRegionCode (code : List Char)
deriving DecidableEq

/-- Modelled from the spec: the external bounds provider for ISO codes,
`base_bounds_provider(code) -> BoundingBox | UnknownRegionCodeError`. -/
abbrev Provider : Type := List Char → Except ResolveError BoundingBox

/-- Modelled from the spec: the base forms of a region descriptor. -/
inductive BaseDesc where
  | nums (a b c d : ℚ)
  | globalG
  | globalD
  | iso (code : List Char)
deriving DecidableEq

/-- Modelled from the spec: the three expansion modes of rule 5. -/
inductive ExpandMode where
  | rounded
  | unrounded
  | extended
deriving DecidableEq

/-- The modifier letter selecting each expansion mode. -/
def modChar : ExpandMode → Char
  | .rounded => 'r'
  | .unrounded => 'R'
  | .extended => 'e'

/-- One step of splitting a character list at a separator. -/
def splitStep (c : Char) (ch : Char) (acc : List (List Char)) : List (List Char) :=
  if ch = c then [] :: acc
  else
    match acc with
    | [] => [[ch]]
    | h :: t => (ch :: h) :: t

/-- Split a character list at every occurrence of the separator `c`. -/
def splitOnChar (c : Char) (l : List Char) : List (List Char) :=
  List.foldr (splitStep c) [[]] l

/-- Numeric value of a digit character. -/
def digitVal (c : Char) : ℕ := c.toNat - 48

/-- Parse a non-empty all-digit token into a natural number. -/
def parseDigits (l : List Char) : Option ℕ :=
  if !l.isEmpty && l.all Char.isDigit then
    some (l.foldl (fun n c => 10 * n + digitVal c) 0)
  else none

/-- Characters that may appear in a numeric token. -/
def isNumChar (c : Char) : Bool := c.isDigit || c = '-' || c = '.'

/-- Parse an unsigned decimal token (with an optional fractional part). -/
def parseUnsigned (l : List Char) : Option ℚ :=
  match splitOnChar '.' l with
  | [ip] => (parseDigits ip).map (fun n => (n : ℚ))
  | [ip, fp] =>
    match parseDigits ip, parseDigits fp with
    | some n, some f => some ((n : ℚ) + (f : ℚ) / (10 : ℚ) ^ fp.length)
    | _, _ => none
  | _ => none

/-- Parse a possibly negated decimal token. -/
def parseNumberCore (l : List Char) : Option ℚ :=
  match l with
  | '-' :: rest => (parseUnsigned rest).map (fun q => -q)
  | _ => parseUnsigned l

/-- Modelled from the spec: parse one numeric field of a region string; a
malformed numeric token yields no value. -/
def parseNumber (l : List Char) : Option ℚ :=
  if l.all isNumChar then parseNumberCore l else none

/-- Parse a list of numeric fields, failing if any field is malformed. -/
def parseNumbers (parts : List (List Char)) : Option (List ℚ) :=
  match parts with
  | [] => some []
  | p :: ps =>
    match parseNumber p, parseNumbers ps with
    | some q, some qs => some (q :: qs)
    | _, _ => none

/-- Modelled from the spec: a two-letter alphabetic ISO country code. -/
def isIsoCode (l : List Char) : Bool := l.length == 2 && l.all Char.isAlpha

/-- Modelled from the spec: whole-globe region for the `g` shortcut,
longitude [0,360] and latitude [-90,90]. -/
def GLOBE_G : BoundingBox := ⟨0, 360, -90, 90⟩

/-- Modelled from the spec: whole-globe region for the `d` shortcut,
longitude [-180,180] and latitude [-90,90]. -/
def GLOBE_D : BoundingBox := ⟨-180, 180, -90, 90⟩

/-- Modelled from the spec: parsing rules 1, 3 and 4 for a base region string
(global shortcuts, ISO codes, or four slash-separated numeric fields). -/
def parseBase (l : List Char) : Except ResolveError BaseDesc :=
  if l = ['g'] then .ok .globalG
  else if l = ['d'] then .ok .globalD
  else if isIsoCode l then .ok (.iso l)
  else
    match parseNumbers (splitOnChar '/' l) with
    | some [a, b, c, d] => .ok (.nums a b c d)
    | _ => .error (.invalidRegion "unrecognized region token")

/-- Modelled from the spec: resolve a base descriptor, delegating ISO codes
to the external bounds provider. -/
def resolveBase (p : Provider) : BaseDesc → Except ResolveError BoundingBox
  | .nums a b c d => .ok ⟨a, b, c, d⟩
  | .globalG => .ok GLOBE_G
  | .globalD => .ok GLOBE_D
  | .iso code => p code

/-- Modelled from the spec: corner-pair re-derivation, (min(lon0,lon1),
max(lon0,lon1), min(lat0,lat1), max(lat0,lat1)). -/
def cornerBox (lon0 lat0 lon1 lat1 : ℚ) : BoundingBox :=
  ⟨min lon0 lon1, max lon0 lon1, min lat0 lat1, max lat0 lat1⟩

/-- Modelled from the spec: final validation, west < east and south < north,
otherwise the resolution fails with an invalid-region error. -/
def validate (bb : BoundingBox) : Except ResolveError BoundingBox :=
  if bb.west < bb.east ∧ bb.south < bb.north then .ok bb
  else .error (.invalidRegion "inverted bounds after transforms")

/-- Round `x` down to the nearest multiple of `inc`. -/
def roundDownTo (x inc : ℚ) : ℚ := inc * ⌊x / inc⌋

/-- Round `x` up to the nearest multiple of `inc`. -/
def roundUpTo (x inc : ℚ) : ℚ := inc * ⌈x / inc⌉

/-- Modelled from the spec: the lower-bound side of a `+e` expansion, rounding
down to a multiple of `inc` but guaranteeing padding of at least `inc / 4`. -/
def extendLow (x inc : ℚ) : ℚ :=
  if x - roundDownTo x inc < inc / 4 then roundDownTo x inc - inc
  else roundDownTo x inc

/-- Modelled from the spec: the upper-bound side of a `+e` expansion, rounding
up to a multiple of `inc` but guaranteeing padding of at least `inc / 4`. -/
def extendHigh (x inc : ℚ) : ℚ :=
  if roundUpTo x inc - x < inc / 4 then roundUpTo x inc + inc
  else roundUpTo x inc

/-- Modelled from the spec: `+r` expansion, round the minima down and the
maxima up to multiples of the per-side increments. -/
def expandRounded (bb : BoundingBox) (iw ie isq inq : ℚ) : BoundingBox :=
  ⟨roundDownTo bb.west iw, roundUpTo bb.east ie,
    roundDownTo bb.south isq, roundUpTo bb.north inq⟩

/-- Modelled from the spec: `+R` expansion, add the increments directly with
no rounding. -/
def expandUnrounded (bb : BoundingBox) (iw ie isq inq : ℚ) : BoundingBox :=
  ⟨bb.west - iw, bb.east + ie, bb.south - isq, bb.north + inq⟩

/-- Modelled from the spec: `+e` expansion, like `+r` but with a guaranteed
minimum padding of a quarter increment on every side. -/
def expandExtended (bb : BoundingBox) (iw ie isq inq : ℚ) : BoundingBox :=
  ⟨extendLow bb.west iw, extendHigh bb.east ie,
    extendLow bb.south isq, extendHigh bb.north inq⟩

/-- Apply an expansion mode with per-side increments (west, east, south,
north). -/
def applyExpansion (m : ExpandMode) (bb : BoundingBox) (incs : ℚ × ℚ × ℚ × ℚ) :
    BoundingBox :=
  match m, incs with
  | .rounded, (iw, ie, isq, inq) => expandRounded bb iw ie isq inq
  | .unrounded, (iw, ie, isq, inq) => expandUnrounded bb iw ie isq inq
  | .extended, (iw, ie, isq, inq) => expandExtended bb iw ie isq inq

/-- Modelled from the spec: the arity-dependent increment list of rule 5 — one
number applies to all four sides, two numbers apply per axis, four numbers
apply per side, any other arity is invalid. -/
def parseIncrements (l : List Char) : Except ResolveError (ℚ × ℚ × ℚ × ℚ) :=
  match parseNumbers (splitOnChar '/' l) with
  | some [i] => .ok (i, i, i, i)
  | some [x, y] => .ok (x, x, y, y)
  | some [a, b, c, d] => .ok (a, b, c, d)
  | _ => .error (.invalidRegion "increments must be one, two, or four numbers")

/-- Resolve a base region string carrying an expansion modifier. -/
def resolveWithMod (p : Provider) (m : ExpandMode) (base rest : List Char) :
    Except ResolveError BoundingBox :=
  match parseIncrements rest with
  | .error e => .error e
  | .ok incs =>
    match parseBase base with
    | .error e => .error e
    | .ok bd =>
      match resolveBase p bd with
      | .error e => .error e
      | .ok bb => validate (applyExpansion m bb incs)

/-- Resolve a four-number base string flagged as a corner pair by a bare
trailing modifier. -/
def resolveCorner (base : List Char) : Except ResolveError BoundingBox :=
  match parseBase base with
  | .ok (.nums lon0 lat0 lon1 lat1) => validate (cornerBox lon0 lat0 lon1 lat1)
  | .ok _ => .error (.invalidRegion "corner form requires coordinates")
  | .error e => .error e

/-- Dispatch on the modifier letter following the plus sign. -/
def resolveModified (p : Provider) (base : List Char) (m : List Char) :
    Except ResolveError BoundingBox :=
  match m with
  | [] => .error (.invalidRegion "empty modifier")
  | mc :: rest =>
    if mc = 'r' then
      if rest = [] then resolveCorner base
      else resolveWithMod p .rounded base rest
    else if mc = 'R' then
      if rest = [] then .error (.invalidRegion "missing increment")
      else resolveWithMod p .unrounded base rest
    else if mc = 'e' then
      if rest = [] then .error (.invalidRegion "missing increment")
      else resolveWithMod p .extended base rest
    else .error (.invalidRegion "unknown modifier")

/-- Resolve a region string with no modifier suffix. -/
def resolveUnmodified (p : Provider) (base : List Char) :
    Except ResolveError BoundingBox :=
  match parseBase base with
  | .error e => .error e
  | .ok bd =>
    match resolveBase p bd with
    | .error e => .error e
    | .ok bb => validate bb

/-- Resolve a region character list: split off an optional `+` modifier
suffix, resolve the base, apply the modifier, and validate. -/
def resolveChars (p : Provider) (l : List Char) : Except ResolveError BoundingBox :=
  match splitOnChar '+' l with
  | [base] => resolveUnmodified p base
  | [base, m] => resolveModified p base m
  | _ => .error (.invalidRegion "unrecognized region")

/-- Modelled from the spec: `resolve(descriptor, base_bounds_provider) ->
BoundingBox`, the string entry point of the resolver contract in section 4.1,
absent from the repository sources. -/
def resolve (p : Provider) (s : String) : Except ResolveError BoundingBox :=
  resolveChars p s.data

/-- Modelled from the spec: rule 6, a sequence of exactly four numbers is
treated identically to the four-field coordinate string of rule 1. -/
def resolveList (nums : List ℚ) : Except ResolveError BoundingBox :=
  match nums with
  | [a, b, c, d] => validate ⟨a, b, c, d⟩
  | _ => .error (.invalidRegion "region list must have four numbers")

/-- Whether a resolution outcome is an invalid-region failure. -/
def isInvalidRegionError : Except ResolveError BoundingBox → Bool
  | .error (.invalidRegion _) => true
  | _ => false

/-- A sample bounds provider knowing only the code JP, standing in for the
external country lookup table. -/
def jpProvider : Provider := fun code =>
  if code = ['J', 'P'] then .ok ⟨122.9, 146.9, 20.4, 45.6⟩
  else .error (.unknownRegionCode code)

/-- Build a four-field slash-separated region string from four tokens. -/
def mk4 (t1 t2 t3 t4 : List Char) : List Char :=
  t1 ++ '/' :: (t2 ++ '/' :: (t3 ++ '/' :: t4))

/-- Minimum of a data column with head `x` and tail `xs`, as computed by a
fold; models the minimum of a non-empty series. -/
def seriesMin (x : ℚ) (xs : List ℚ) : ℚ := xs.foldl min x

/-- Maximum of a data column with head `x` and tail `xs`. -/
def seriesMax (x : ℚ) (xs : List ℚ) : ℚ := xs.foldl max x

/-- The region list computed by the plotting-data script:
`[lon.min() - 1, lon.max() + 1, lat.min() - 1, lat.max() + 1]`. -/
def plotRegion (lon0 : ℚ) (lons : List ℚ) (lat0 : ℚ) (lats : List ℚ) : List ℚ :=
  [seriesMin lon0 lons - 1, seriesMax lon0 lons + 1,
    seriesMin lat0 lats - 1, seriesMax lat0 lats + 1]

theorem splitStep_foldr_no_sep (c : Char) (l : List Char) (h : List Char)
    (t : List (List Char)) (hc : c ∉ l) :
    List.foldr (splitStep c) (h :: t) l = (l ++ h) :: t := by
  induction l with
  | nil => rfl
  | cons x xs ih =>
    have hx : ¬ x = c := by
      intro e
      exact hc (e ▸ List.mem_cons_self x xs)
    have hxs : c ∉ xs := fun m => hc (List.mem_cons_of_mem x m)
    simp [List.foldr, ih hxs, splitStep, hx]

theorem splitOnChar_no_sep (c : Char) (l : List Char) (hc : c ∉ l) :
    splitOnChar c l = [l] := by
  unfold splitOnChar
  have h := splitStep_foldr_no_sep c l [] [] hc
  simpa using h

theorem splitOnChar_append (c : Char) (l1 l2 : List Char) (h1 : c ∉ l1) :
    splitOnChar c (l1 ++ c :: l2) = l1 :: splitOnChar c l2 := by
  unfold splitOnChar
  rw [List.foldr_append]
  have hstep : List.foldr (splitStep c) [[]] (c :: l2) =
      [] :: List.foldr (splitStep c) [[]] l2 := by
    simp [List.foldr, splitStep]
  rw [hstep]
  have h := splitStep_foldr_no_sep c l1 [] (List.foldr (splitStep c) [[]] l2) h1
  simpa using h

theorem parseNumber_mem_isNumChar {t : List Char} {q : ℚ}
    (h : parseNumber t = some q) {ch : Char} (hm : ch ∈ t) :
    isNumChar ch = true := by
  unfold parseNumber at h
  split at h
  · next hcond => exact List.all_eq_true.mp hcond ch hm
  · exact Option.noConfusion h

theorem parseNumber_no_slash {t : List Char} {q : ℚ}
    (h : parseNumber t = some q) : '/' ∉ t := by
  intro hm
  have hn := parseNumber_mem_isNumChar h hm
  exact absurd hn (by decide)

theorem parseNumber_no_plus {t : List Char} {q : ℚ}
    (h : parseNumber t = some q) : '+' ∉ t := by
  intro hm
  have hn := parseNumber_mem_isNumChar h hm
  exact absurd hn (by decide)

theorem splitOnChar_mk4 (t1 t2 t3 t4 : List Char) (n1 : '/' ∉ t1)
    (n2 : '/' ∉ t2) (n3 : '/' ∉ t3) (n4 : '/' ∉ t4) :
    splitOnChar '/' (mk4 t1 t2 t3 t4) = [t1, t2, t3, t4] := by
  unfold mk4
  rw [splitOnChar_append '/' t1 _ n1, splitOnChar_append '/' t2 _ n2,
    splitOnChar_append '/' t3 _ n3, splitOnChar_no_sep '/' t4 n4]

theorem mk4_not_mem (ch : Char) (t1 t2 t3 t4 : List Char) (hch : ¬ ch = '/')
    (n1 : ch ∉ t1) (n2 : ch ∉ t2) (n3 : ch ∉ t3) (n4 : ch ∉ t4) :
    ch ∉ mk4 t1 t2 t3 t4 := by
  unfold mk4
  intro h
  simp only [List.mem_append, List.mem_cons] at h
  rcases h with h | h | h | h | h | h | h
  · exact n1 h
  · exact hch h
  · exact n2 h
  · exact hch h
  · exact n3 h
  · exact hch h
  · exact n4 h

theorem mk4_mem_slash (t1 t2 t3 t4 : List Char) : '/' ∈ mk4 t1 t2 t3 t4 := by
  unfold mk4
  exact List.mem_append_right t1 (List.mem_cons_self '/' _)

theorem parseBase_mk4 (t1 t2 t3 t4 : List Char) (a b c d : ℚ)
    (h1 : parseNumber t1 = some a) (h2 : parseNumber t2 = some b)
    (h3 : parseNumber t3 = some c) (h4 : parseNumber t4 = some d) :
    parseBase (mk4 t1 t2 t3 t4) = .ok (.nums a b c d) := by
  have hslash := mk4_mem_slash t1 t2 t3 t4
  have hg : ¬ mk4 t1 t2 t3 t4 = ['g'] := by
    intro he
    rw [he] at hslash
    exact absurd hslash (by decide)
  have hd : ¬ mk4 t1 t2 t3 t4 = ['d'] := by
    intro he
    rw [he] at hslash
    exact absurd hslash (by decide)
  have hiso : ¬ isIsoCode (mk4 t1 t2 t3 t4) = true := by
    intro hi
    unfold isIsoCode at hi
    have hall := (Bool.and_eq_true _ _).mp hi
    have halpha := List.all_eq_true.mp hall.2 '/' hslash
    exact absurd halpha (by decide)
  unfold parseBase
  rw [if_neg hg, if_neg hd, if_neg hiso]
  rw [splitOnChar_mk4 t1 t2 t3 t4 (parseNumber_no_slash h1)
    (parseNumber_no_slash h2) (parseNumber_no_slash h3) (parseNumber_no_slash h4)]
  simp [parseNumbers, h1, h2, h3, h4]

theorem roundDownTo_le (x i : ℚ) (hi : 0 < i) : roundDownTo x i ≤ x := by
  have h1 : ((⌊x / i⌋ : ℤ) : ℚ) ≤ x / i := Int.floor_le (x / i)
  have h2 : i * ((⌊x / i⌋ : ℤ) : ℚ) ≤ i * (x / i) :=
    mul_le_mul_of_nonneg_left h1 (le_of_lt hi)
  have h3 : i * (x / i) = x := by
    field_simp
  unfold roundDownTo
  linarith

theorem roundDownTo_gt (x i : ℚ) (hi : 0 < i) : x - i < roundDownTo x i := by
  have h1 : x / i - 1 < ((⌊x / i⌋ : ℤ) : ℚ) := Int.sub_one_lt_floor (x / i)
  have h2 : i * (x / i - 1) < i * ((⌊x / i⌋ : ℤ) : ℚ) :=
    mul_lt_mul_of_pos_left h1 hi
  have h3 : i * (x / i) = x := by field_simp
  have h4 : i * (x / i - 1) = x - i := by
    rw [mul_sub, h3, mul_one]
  unfold roundDownTo
  linarith

theorem roundDownTo_mult (x i : ℚ) : ∃ k : ℤ, roundDownTo x i = i * k :=
  ⟨⌊x / i⌋, rfl⟩

theorem roundDownTo_fixed (x i : ℚ) (hi : 0 < i) (k : ℤ) (hk : x = i * k) :
    roundDownTo x i = x := by
  unfold roundDownTo
  rw [hk, mul_comm i (k : ℚ), mul_div_assoc, div_self (ne_of_gt hi), mul_one,
    Int.floor_intCast, mul_comm]

theorem roundUpTo_ge (x i : ℚ) (hi : 0 < i) : x ≤ roundUpTo x i := by
  have h1 : x / i ≤ ((⌈x / i⌉ : ℤ) : ℚ) := Int.le_ceil (x / i)
  have h2 : i * (x / i) ≤ i * ((⌈x / i⌉ : ℤ) : ℚ) :=
    mul_le_mul_of_nonneg_left h1 (le_of_lt hi)
  have h3 : i * (x / i) = x := by field_simp
  unfold roundUpTo
  linarith

theorem roundUpTo_lt (x i : ℚ) (hi : 0 < i) : roundUpTo x i < x + i := by
  have h1 : ((⌈x / i⌉ : ℤ) : ℚ) < x / i + 1 := Int.ceil_lt_add_one (x / i)
  have h2 : i * ((⌈x / i⌉ : ℤ) : ℚ) < i * (x / i + 1) :=
    mul_lt_mul_of_pos_left h1 hi
  have h3 : i * (x / i) = x := by field_simp
  have h4 : i * (x / i + 1) = x + i := by
    rw [mul_add, h3, mul_one]
  unfold roundUpTo
  linarith

theorem roundUpTo_mult (x i : ℚ) : ∃ k : ℤ, roundUpTo x i = i * k :=
  ⟨⌈x / i⌉, rfl⟩

theorem roundUpTo_fixed (x i : ℚ) (hi : 0 < i) (k : ℤ) (hk : x = i * k) :
    roundUpTo x i = x := by
  unfold roundUpTo
  rw [hk, mul_comm i (k : ℚ), mul_div_assoc, div_self (ne_of_gt hi), mul_one,
    Int.ceil_intCast, mul_comm]

theorem extendLow_le (x i : ℚ) (hi : 0 < i) : extendLow x i ≤ x := by
  have h := roundDownTo_le x i hi
  unfold extendLow
  split
  · linarith
  · exact h

theorem extendLow_pad (x i : ℚ) (hi : 0 < i) : i / 4 ≤ x - extendLow x i := by
  have h := roundDownTo_le x i hi
  unfold extendLow
  split
  · linarith
  · next hcond => linarith [not_lt.mp hcond]

theorem extendLow_mult (x i : ℚ) : ∃ k : ℤ, extendLow x i = i * k := by
  unfold extendLow
  split
  · refine ⟨⌊x / i⌋ - 1, ?_⟩
    unfold roundDownTo
    push_cast
    ring
  · exact roundDownTo_mult x i

theorem extendLow_eq_bump (x i : ℚ) (h : x - roundDownTo x i < i / 4) :
    extendLow x i = roundDownTo x i - i := by
  unfold extendLow
  rw [if_pos h]

theorem extendLow_eq_plain (x i : ℚ) (h : i / 4 ≤ x - roundDownTo x i) :
    extendLow x i = roundDownTo x i := by
  unfold extendLow
  rw [if_neg (not_lt.mpr h)]

theorem extendHigh_ge (x i : ℚ) (hi : 0 < i) : x ≤ extendHigh x i := by
  have h := roundUpTo_ge x i hi
  unfold extendHigh
  split
  · linarith
  · exact h

theorem extendHigh_pad (x i : ℚ) (hi : 0 < i) : i / 4 ≤ extendHigh x i - x := by
  have h := roundUpTo_ge x i hi
  unfold extendHigh
  split
  · linarith
  · next hcond => linarith [not_lt.mp hcond]

theorem extendHigh_mult (x i : ℚ) : ∃ k : ℤ, extendHigh x i = i * k := by
  unfold extendHigh
  split
  · refine ⟨⌈x / i⌉ + 1, ?_⟩
    unfold roundUpTo
    push_cast
    ring
  · exact roundUpTo_mult x i

theorem extendHigh_eq_bump (x i : ℚ) (h : roundUpTo x i - x < i / 4) :
    extendHigh x i = roundUpTo x i + i := by
  unfold extendHigh
  rw [if_pos h]

theorem extendHigh_eq_plain (x i : ℚ) (h : i / 4 ≤ roundUpTo x i - x) :
    extendHigh x i = roundUpTo x i := by
  unfold extendHigh
  rw [if_neg (not_lt.mpr h)]

theorem validate_ok {b bb : BoundingBox} (h : validate b = .ok bb) :
    bb.west < bb.east ∧ bb.south < bb.north := by
  unfold validate at h
  split at h
  · next hcond =>
    cases h
    exact hcond
  · exact Except.noConfusion h

theorem resolveWithMod_ok {p : Provider} {m : ExpandMode} {base rest : List Char}
    {bb : BoundingBox} (h : resolveWithMod p m base rest = .ok bb) :
    bb.west < bb.east ∧ bb.south < bb.north := by
  unfold resolveWithMod at h
  split at h
  · exact Except.noConfusion h
  · split at h
    · exact Except.noConfusion h
    · split at h
      · exact Except.noConfusion h
      · exact validate_ok h

theorem resolveCorner_ok {base : List Char} {bb : BoundingBox}
    (h : resolveCorner base = .ok bb) :
    bb.west < bb.east ∧ bb.south < bb.north := by
  unfold resolveCorner at h
  split at h
  · exact validate_ok h
  · exact Except.noConfusion h
  · exact Except.noConfusion h

theorem resolveUnmodified_ok {p : Provider} {base : List Char} {bb : BoundingBox}
    (h : resolveUnmodified p base = .ok bb) :
    bb.west < bb.east ∧ bb.south < bb.north := by
  unfold resolveUnmodified at h
  split at h
  · exact Except.noConfusion h
  · split at h
    · exact Except.noConfusion h
    · exact validate_ok h

theorem resolveModified_ok {p : Provider} {base m : List Char} {bb : BoundingBox}
    (h : resolveModified p base m = .ok bb) :
    bb.west < bb.east ∧ bb.south < bb.north := by
  unfold resolveModified at h
  split at h
  · exact Except.noConfusion h
  · split at h
    · split at h
      · exact resolveCorner_ok h
      · exact resolveWithMod_ok h
    · split at h
      · split at h
        · exact Except.noConfusion h
        · exact resolveWithMod_ok h
      · split at h
        · split at h
          · exact Except.noConfusion h
          · exact resolveWithMod_ok h
        · exact Except.noConfusion h

theorem resolveChars_ok {p : Provider} {l : List Char} {bb : BoundingBox}
    (h : resolveChars p l = .ok bb) :
    bb.west < bb.east ∧ bb.south < bb.north := by
  unfold resolveChars at h
  split at h
  · exact resolveUnmodified_ok h
  · exact resolveModified_ok h
  · exact Except.noConfusion h

theorem resolve_ok_valid {p : Provider} {s : String} {bb : BoundingBox}
    (h : resolve p s = .ok bb) :
    bb.west < bb.east ∧ bb.south < bb.north :=
  resolveChars_ok h

theorem parseIncrements_one (t : List Char) (i : ℚ)
    (h : parseNumber t = some i) : parseIncrements t = .ok (i, i, i, i) := by
  unfold parseIncrements
  rw [splitOnChar_no_sep '/' t (parseNumber_no_slash h)]
  simp [parseNumbers, h]

theorem parseIncrements_two (t1 t2 : List Char) (x y : ℚ)
    (h1 : parseNumber t1 = some x) (h2 : parseNumber t2 = some y) :
    parseIncrements (t1 ++ '/' :: t2) = .ok (x, x, y, y) := by
  unfold parseIncrements
  rw [splitOnChar_append '/' t1 t2 (parseNumber_no_slash h1),
    splitOnChar_no_sep '/' t2 (parseNumber_no_slash h2)]
  simp [parseNumbers, h1, h2]

theorem parseIncrements_four (t1 t2 t3 t4 : List Char) (a b c d : ℚ)
    (h1 : parseNumber t1 = some a) (h2 : parseNumber t2 = some b)
    (h3 : parseNumber t3 = some c) (h4 : parseNumber t4 = some d) :
    parseIncrements (mk4 t1 t2 t3 t4) = .ok (a, b, c, d) := by
  unfold parseIncrements
  rw [splitOnChar_mk4 t1 t2 t3 t4 (parseNumber_no_slash h1)
    (parseNumber_no_slash h2) (parseNumber_no_slash h3) (parseNumber_no_slash h4)]
  simp [parseNumbers, h1, h2, h3, h4]

instance {e a : Type} [DecidableEq e] [DecidableEq a] : DecidableEq (Except e a) := fun x y =>
  match x, y with
  | .ok a, .ok b =>
    if h : a = b then isTrue (by rw [h]) else
      isFalse (by intro he; cases he; exact h rfl)
  | .error a, .error b =>
    if h : a = b then isTrue (by rw [h]) else
      isFalse (by intro he; cases he; exact h rfl)
  | .ok _, .error _ => isFalse (fun he => Except.noConfusion he)
  | .error _, .ok _ => isFalse (fun he => Except.noConfusion he)

theorem resolveChars_mk4 (p : Provider) (t1 t2 t3 t4 : List Char) (a b c d : ℚ)
    (h1 : parseNumber t1 = some a) (h2 : parseNumber t2 = some b)
    (h3 : parseNumber t3 = some c) (h4 : parseNumber t4 = some d) :
    resolveChars p (mk4 t1 t2 t3 t4) = validate ⟨a, b, c, d⟩ := by
  have hplus : '+' ∉ mk4 t1 t2 t3 t4 :=
    mk4_not_mem '+' t1 t2 t3 t4 (by decide) (parseNumber_no_plus h1)
      (parseNumber_no_plus h2) (parseNumber_no_plus h3) (parseNumber_no_plus h4)
  unfold resolveChars
  rw [splitOnChar_no_sep '+' _ hplus]
  show resolveUnmodified p (mk4 t1 t2 t3 t4) = validate ⟨a, b, c, d⟩
  unfold resolveUnmodified
  rw [parseBase_mk4 t1 t2 t3 t4 a b c d h1 h2 h3 h4]
  rfl

theorem resolveChars_corner (p : Provider) (t1 t2 t3 t4 : List Char)
    (a b c d : ℚ)
    (h1 : parseNumber t1 = some a) (h2 : parseNumber t2 = some b)
    (h3 : parseNumber t3 = some c) (h4 : parseNumber t4 = some d) :
    resolveChars p (mk4 t1 t2 t3 t4 ++ ['+', 'r']) = validate (cornerBox a b c d) := by
  have hplus : '+' ∉ mk4 t1 t2 t3 t4 :=
    mk4_not_mem '+' t1 t2 t3 t4 (by decide) (parseNumber_no_plus h1)
      (parseNumber_no_plus h2) (parseNumber_no_plus h3) (parseNumber_no_plus h4)
  have he : mk4 t1 t2 t3 t4 ++ ['+', 'r'] = mk4 t1 t2 t3 t4 ++ '+' :: ['r'] := rfl
  unfold resolveChars
  rw [he, splitOnChar_append '+' _ ['r'] hplus, splitOnChar_no_sep '+' ['r'] (by decide)]
  show resolveModified p (mk4 t1 t2 t3 t4) ['r'] = validate (cornerBox a b c d)
  have hred : resolveModified p (mk4 t1 t2 t3 t4) ['r'] =
      resolveCorner (mk4 t1 t2 t3 t4) := rfl
  rw [hred]
  unfold resolveCorner
  rw [parseBase_mk4 t1 t2 t3 t4 a b c d h1 h2 h3 h4]

theorem resolveWithMod_jp (p : Provider) (bb : BoundingBox) (m : ExpandMode)
    (rest : List Char) (incs : ℚ × ℚ × ℚ × ℚ)
    (hp : p ['J', 'P'] = .ok bb) (hi : parseIncrements rest = .ok incs) :
    resolveWithMod p m ['J', 'P'] rest = validate (applyExpansion m bb incs) := by
  have hb : parseBase ['J', 'P'] = .ok (.iso ['J', 'P']) := rfl
  simp only [resolveWithMod, hi, hb, resolveBase, hp]

theorem resolveChars_jp_mod (p : Provider) (bb : BoundingBox) (m : ExpandMode)
    (rest : List Char) (incs : ℚ × ℚ × ℚ × ℚ) (hrest : ¬ rest = [])
    (hplus : '+' ∉ rest) (hp : p ['J', 'P'] = .ok bb)
    (hi : parseIncrements rest = .ok incs) :
    resolveChars p ('J' :: 'P' :: '+' :: modChar m :: rest) =
      validate (applyExpansion m bb incs) := by
  have hmodc : ¬ modChar m = '+' := by cases m <;> decide
  have hnomem : '+' ∉ modChar m :: rest := by
    intro hmem
    rcases List.mem_cons.mp hmem with h | h
    · exact hmodc h.symm
    · exact hplus h
  have he : ('J' :: 'P' :: '+' :: modChar m :: rest) =
      ['J', 'P'] ++ '+' :: (modChar m :: rest) := rfl
  unfold resolveChars
  rw [he, splitOnChar_append '+' ['J', 'P'] _ (by decide),
    splitOnChar_no_sep '+' (modChar m :: rest) hnomem]
  show resolveModified p ['J', 'P'] (modChar m :: rest) =
    validate (applyExpansion m bb incs)
  cases m
  · have hred : resolveModified p ['J', 'P'] (modChar .rounded :: rest) =
        if rest = [] then resolveCorner ['J', 'P']
        else resolveWithMod p .rounded ['J', 'P'] rest := rfl
    rw [hred, if_neg hrest]
    exact resolveWithMod_jp p bb .rounded rest incs hp hi
  · have hred : resolveModified p ['J', 'P'] (modChar .unrounded :: rest) =
        if rest = [] then .error (.invalidRegion "missing increment")
        else resolveWithMod p .unrounded ['J', 'P'] rest := rfl
    rw [hred, if_neg hrest]
    exact resolveWithMod_jp p bb .unrounded rest incs hp hi
  · have hred : resolveModified p ['J', 'P'] (modChar .extended :: rest) =
        if rest = [] then .error (.invalidRegion "missing increment")
        else resolveWithMod p .extended ['J', 'P'] rest := rfl
    rw [hred, if_neg hrest]
    exact resolveWithMod_jp p bb .extended rest incs hp hi

theorem resolveChars_zz (p : Provider) (e : ResolveError)
    (hp : p ['Z', 'Z'] = .error e) : resolveChars p ['Z', 'Z'] = .error e := by
  unfold resolveChars
  rw [splitOnChar_no_sep '+' ['Z', 'Z'] (by decide)]
  show resolveUnmodified p ['Z', 'Z'] = .error e
  have hb : parseBase ['Z', 'Z'] = .ok (.iso ['Z', 'Z']) := rfl
  simp only [resolveUnmodified, hb, resolveBase, hp]

theorem parseNumber_ne_nil {t : List Char} {q : ℚ} (h : parseNumber t = some q) :
    ¬ t = [] := by
  intro he
  have hn : parseNumber ([] : List Char) = none := rfl
  rw [he, hn] at h
  exact Option.noConfusion h

theorem resolveChars_base_mod (p : Provider) (base : List Char) (bd : BaseDesc)
    (bb : BoundingBox) (m : ExpandMode) (rest : List Char) (incs : ℚ × ℚ × ℚ × ℚ)
    (hbplus : '+' ∉ base) (hrest : ¬ rest = []) (hplus : '+' ∉ rest)
    (hbase : parseBase base = .ok bd) (hres : resolveBase p bd = .ok bb)
    (hi : parseIncrements rest = .ok incs) :
    resolveChars p (base ++ '+' :: modChar m :: rest) =
      validate (applyExpansion m bb incs) := by
  have hmodc : ¬ modChar m = '+' := by cases m <;> decide
  have hnomem : '+' ∉ modChar m :: rest := by
    intro hmem
    rcases List.mem_cons.mp hmem with h | h
    · exact hmodc h.symm
    · exact hplus h
  unfold resolveChars
  rw [splitOnChar_append '+' base _ hbplus,
    splitOnChar_no_sep '+' (modChar m :: rest) hnomem]
  show resolveModified p base (modChar m :: rest) = validate (applyExpansion m bb incs)
  cases m
  · have hred : resolveModified p base (modChar .rounded :: rest) =
        if rest = [] then resolveCorner base
        else resolveWithMod p .rounded base rest := rfl
    rw [hred, if_neg hrest]
    simp only [resolveWithMod, hi, hbase, hres]
  · have hred : resolveModified p base (modChar .unrounded :: rest) =
        if rest = [] then .error (.invalidRegion "missing increment")
        else resolveWithMod p .unrounded base rest := rfl
    rw [hred, if_neg hrest]
    simp only [resolveWithMod, hi, hbase, hres]
  · have hred : resolveModified p base (modChar .extended :: rest) =
        if rest = [] then .error (.invalidRegion "missing increment")
        else resolveWithMod p .extended base rest := rfl
    rw [hred, if_neg hrest]
    simp only [resolveWithMod, hi, hbase, hres]

theorem validate_pos (bb : BoundingBox) (h1 : bb.west < bb.east)
    (h2 : bb.south < bb.north) : validate bb = .ok bb := by
  unfold validate
  rw [if_pos ⟨h1, h2⟩]

theorem validate_neg (bb : BoundingBox)
    (h : ¬ (bb.west < bb.east ∧ bb.south < bb.north)) :
    validate bb = .error (.invalidRegion "inverted bounds after transforms") := by
  unfold validate
  rw [if_neg h]

theorem roundDownTo_val (x i v : ℚ) (k : ℤ) (h1 : (k : ℚ) ≤ x / i)
    (h2 : x / i < k + 1) (hv : i * k = v) : roundDownTo x i = v := by
  unfold roundDownTo
  rw [Int.floor_eq_iff.mpr ⟨h1, h2⟩, hv]

theorem roundUpTo_val (x i v : ℚ) (k : ℤ) (h1 : (k : ℚ) - 1 < x / i)
    (h2 : x / i ≤ k) (hv : i * k = v) : roundUpTo x i = v := by
  unfold roundUpTo
  rw [Int.ceil_eq_iff.mpr ⟨h1, h2⟩, hv]

theorem extendLow_val_plain (x i v : ℚ) (hr : roundDownTo x i = v)
    (h : ¬ x - v < i / 4) : extendLow x i = v := by
  unfold extendLow
  rw [hr, if_neg h]

theorem extendLow_val_bumped (x i v : ℚ) (hr : roundDownTo x i = v)
    (h : x - v < i / 4) : extendLow x i = v - i := by
  unfold extendLow
  rw [hr, if_pos h]

theorem extendHigh_val_plain (x i v : ℚ) (hr : roundUpTo x i = v)
    (h : ¬ v - x < i / 4) : extendHigh x i = v := by
  unfold extendHigh
  rw [hr, if_neg h]

theorem extendHigh_val_bumped (x i v : ℚ) (hr : roundUpTo x i = v)
    (h : v - x < i / 4) : extendHigh x i = v + i := by
  unfold extendHigh
  rw [hr, if_pos h]

theorem seriesMin_le (x : ℚ) (xs : List ℚ) : seriesMin x xs ≤ x := by
  induction xs generalizing x with
  | nil => exact le_refl x
  | cons y ys ih =>
    have h1 : seriesMin x (y :: ys) = seriesMin (min x y) ys := rfl
    have h2 := ih (min x y)
    have h3 : min x y ≤ x := min_le_left x y
    rw [h1]
    exact le_trans h2 h3

theorem le_seriesMax (x : ℚ) (xs : List ℚ) : x ≤ seriesMax x xs := by
  induction xs generalizing x with
  | nil => exact le_refl x
  | cons y ys ih =>
    have h1 : seriesMax x (y :: ys) = seriesMax (max x y) ys := rfl
    have h2 := ih (max x y)
    have h3 : x ≤ max x y := le_max_left x y
    rw [h1]
    exact le_trans h3 h2

/-- C1: for every base region and `+r` expansion with increment i, resolve
rounds each bound outward to the nearest multiple of i (west and south down,
east and north up), leaves exact multiples unchanged, and in particular
resolve of 10/20/35/45+r5 and of 11/19/36/44+r5 both yield (10,20,35,45). -/
theorem spec_C1 :
    (∀ x i : ℚ, 0 < i →
      roundDownTo x i ≤ x ∧ (∃ k : ℤ, roundDownTo x i = i * k) ∧
        x - roundDownTo x i < i ∧ (∀ k : ℤ, x = i * k → roundDownTo x i = x)) ∧
    (∀ x i : ℚ, 0 < i →
      x ≤ roundUpTo x i ∧ (∃ k : ℤ, roundUpTo x i = i * k) ∧
        roundUpTo x i - x < i ∧ (∀ k : ℤ, x = i * k → roundUpTo x i = x)) ∧
    (∀ (bb : BoundingBox) (iw ie isq inq : ℚ), expandRounded bb iw ie isq inq =
      ⟨roundDownTo bb.west iw, roundUpTo bb.east ie, roundDownTo bb.south isq,
        roundUpTo bb.north inq⟩) ∧
    (∀ (p : Provider) (base : List Char) (bd : BaseDesc) (bb : BoundingBox)
      (t : List Char) (i : ℚ), '+' ∉ base → parseBase base = .ok bd →
      resolveBase p bd = .ok bb → parseNumber t = some i →
      resolve p (String.mk (base ++ '+' :: 'r' :: t)) =
        validate (expandRounded bb i i i i)) ∧
    resolve jpProvider "10/20/35/45+r5" = .ok ⟨10, 20, 35, 45⟩ ∧
    resolve jpProvider "11/19/36/44+r5" = .ok ⟨10, 20, 35, 45⟩ := by
  refine ⟨?_, ?_, ?_, ?_, ?_, ?_⟩
  · intro x i hi
    refine ⟨roundDownTo_le x i hi, roundDownTo_mult x i, ?_, ?_⟩
    · linarith [roundDownTo_gt x i hi]
    · intro k hk
      exact roundDownTo_fixed x i hi k hk
  · intro x i hi
    refine ⟨roundUpTo_ge x i hi, roundUpTo_mult x i, ?_, ?_⟩
    · linarith [roundUpTo_lt x i hi]
    · intro k hk
      exact roundUpTo_fixed x i hi k hk
  · intro bb iw ie isq inq
    rfl
  · intro p base bd bb t i hbp hbase hres ht
    exact resolveChars_base_mod p base bd bb .rounded t (i, i, i, i) hbp
      (parseNumber_ne_nil ht) (parseNumber_no_plus ht) hbase hres
      (parseIncrements_one t i ht)
  · have hb : parseBase (mk4 ['1', '0'] ['2', '0'] ['3', '5'] ['4', '5']) =
        .ok (.nums 10 20 35 45) := by decide
    have h := resolveChars_base_mod jpProvider
      (mk4 ['1', '0'] ['2', '0'] ['3', '5'] ['4', '5']) (.nums 10 20 35 45)
      ⟨10, 20, 35, 45⟩ .rounded ['5'] (5, 5, 5, 5) (by decide) (by decide)
      (by decide) hb rfl (parseIncrements_one ['5'] 5 rfl)
    have hbridge : resolve jpProvider "10/20/35/45+r5" =
        resolveChars jpProvider (mk4 ['1', '0'] ['2', '0'] ['3', '5'] ['4', '5'] ++
          '+' :: modChar .rounded :: ['5']) := rfl
    have hexp : expandRounded ⟨10, 20, 35, 45⟩ 5 5 5 5 = ⟨10, 20, 35, 45⟩ := by
      simp only [expandRounded]
      rw [roundDownTo_val (10 : ℚ) 5 10 2 (by norm_num) (by norm_num) (by norm_num),
        roundUpTo_val (20 : ℚ) 5 20 4 (by norm_num) (by norm_num) (by norm_num),
        roundDownTo_val (35 : ℚ) 5 35 7 (by norm_num) (by norm_num) (by norm_num),
        roundUpTo_val (45 : ℚ) 5 45 9 (by norm_num) (by norm_num) (by norm_num)]
    rw [hbridge, h]
    show validate (expandRounded ⟨10, 20, 35, 45⟩ 5 5 5 5) = .ok ⟨10, 20, 35, 45⟩
    rw [hexp]
    exact validate_pos _ (by norm_num) (by norm_num)
  · have hb : parseBase (mk4 ['1', '1'] ['1', '9'] ['3', '6'] ['4', '4']) =
        .ok (.nums 11 19 36 44) := by decide
    have h := resolveChars_base_mod jpProvider
      (mk4 ['1', '1'] ['1', '9'] ['3', '6'] ['4', '4']) (.nums 11 19 36 44)
      ⟨11, 19, 36, 44⟩ .rounded ['5'] (5, 5, 5, 5) (by decide) (by decide)
      (by decide) hb rfl (parseIncrements_one ['5'] 5 rfl)
    have hbridge : resolve jpProvider "11/19/36/44+r5" =
        resolveChars jpProvider (mk4 ['1', '1'] ['1', '9'] ['3', '6'] ['4', '4'] ++
          '+' :: modChar .rounded :: ['5']) := rfl
    have hexp : expandRounded ⟨11, 19, 36, 44⟩ 5 5 5 5 = ⟨10, 20, 35, 45⟩ := by
      simp only [expandRounded]
      rw [roundDownTo_val (11 : ℚ) 5 10 2 (by norm_num) (by norm_num) (by norm_num),
        roundUpTo_val (19 : ℚ) 5 20 4 (by norm_num) (by norm_num) (by norm_num),
        roundDownTo_val (36 : ℚ) 5 35 7 (by norm_num) (by norm_num) (by norm_num),
        roundUpTo_val (44 : ℚ) 5 45 9 (by norm_num) (by norm_num) (by norm_num)]
    rw [hbridge, h]
    show validate (expandRounded ⟨11, 19, 36, 44⟩ 5 5 5 5) = .ok ⟨10, 20, 35, 45⟩
    rw [hexp]
    exact validate_pos _ (by norm_num) (by norm_num)

theorem spec_C1_witness :
    (0 : ℚ) < 5 ∧ roundDownTo (11 : ℚ) 5 ≤ 11 ∧
      resolve jpProvider "10/20/35/45+r5" = .ok ⟨10, 20, 35, 45⟩ :=
  ⟨by norm_num, (spec_C1.1 11 5 (by norm_num)).1, spec_C1.2.2.2.2.1⟩

/-- C2: a four-field region string ending with the bare `+r` suffix is read as
corner coordinates lon0/lat0/lon1/lat1 and resolves to the re-derived bounds
(min lon0 lon1, max lon0 lon1, min lat0 lat1, max lat0 lat1). -/
theorem spec_C2 :
    (∀ lon0 lat0 lon1 lat1 : ℚ, cornerBox lon0 lat0 lon1 lat1 =
      ⟨min lon0 lon1, max lon0 lon1, min lat0 lat1, max lat0 lat1⟩) ∧
    (∀ (p : Provider) (t1 t2 t3 t4 : List Char) (lon0 lat0 lon1 lat1 : ℚ),
      parseNumber t1 = some lon0 → parseNumber t2 = some lat0 →
      parseNumber t3 = some lon1 → parseNumber t4 = some lat1 →
      min lon0 lon1 < max lon0 lon1 → min lat0 lat1 < max lat0 lat1 →
      resolve p (String.mk (mk4 t1 t2 t3 t4 ++ ['+', 'r'])) =
        .ok ⟨min lon0 lon1, max lon0 lon1, min lat0 lat1, max lat0 lat1⟩) ∧
    resolve jpProvider "10/35/20/45+r" = .ok ⟨10, 20, 35, 45⟩ := by
  refine ⟨?_, ?_, ?_⟩
  · intro lon0 lat0 lon1 lat1
    rfl
  · intro p t1 t2 t3 t4 lon0 lat0 lon1 lat1 h1 h2 h3 h4 hlon hlat
    have h := resolveChars_corner p t1 t2 t3 t4 lon0 lat0 lon1 lat1 h1 h2 h3 h4
    have hv : validate (cornerBox lon0 lat0 lon1 lat1) =
        .ok (cornerBox lon0 lat0 lon1 lat1) := validate_pos _ hlon hlat
    exact h.trans hv
  · have hcb : cornerBox 10 35 20 45 = ⟨10, 20, 35, 45⟩ := by
      simp [cornerBox, min_def, max_def]
      norm_num
    have h := resolveChars_corner jpProvider ['1', '0'] ['3', '5'] ['2', '0']
      ['4', '5'] 10 35 20 45 (by decide) (by decide) (by decide) (by decide)
    have hbridge : resolve jpProvider "10/35/20/45+r" =
        resolveChars jpProvider
          (mk4 ['1', '0'] ['3', '5'] ['2', '0'] ['4', '5'] ++ ['+', 'r']) := rfl
    rw [hbridge, h, hcb]
    exact validate_pos _ (by norm_num) (by norm_num)

theorem spec_C2_witness :
    resolve jpProvider
        (String.mk (mk4 ['1', '0'] ['3', '5'] ['2', '0'] ['4', '5'] ++ ['+', 'r'])) =
      .ok ⟨min 10 20, max 10 20, min 35 45, max 35 45⟩ :=
  spec_C2.2.1 jpProvider ['1', '0'] ['3', '5'] ['2', '0'] ['4', '5'] 10 35 20 45
    (by decide) (by decide) (by decide) (by decide) (by norm_num) (by norm_num)

/-- C3: resolve of the global shortcut g yields (0,360,-90,90) and of d yields
(-180,180,-90,90); both span latitude [-90,90] and differ only in the
longitude frame. -/
theorem spec_C3 :
    (∀ p : Provider, resolve p "g" = .ok GLOBE_G) ∧
    (∀ p : Provider, resolve p "d" = .ok GLOBE_D) ∧
    GLOBE_G = ⟨0, 360, -90, 90⟩ ∧ GLOBE_D = ⟨-180, 180, -90, 90⟩ ∧
    GLOBE_G.south = GLOBE_D.south ∧ GLOBE_G.north = GLOBE_D.north :=
  ⟨fun _ => rfl, fun _ => rfl, rfl, rfl, rfl, rfl⟩

/-- C4: `+e` expansion behaves like `+r` (outward rounding to increment
multiples) but guarantees at least a quarter-increment of padding per side,
bumping to the next multiple whenever plain rounding would pad less; in
particular JP+e3 bumps the east bound from 147 to 150 while JP+r3 keeps 147. -/
theorem spec_C4 :
    (∀ x i : ℚ, 0 < i →
      (∃ k : ℤ, extendLow x i = i * k) ∧ extendLow x i ≤ x ∧
        i / 4 ≤ x - extendLow x i ∧
        (x - roundDownTo x i < i / 4 → extendLow x i = roundDownTo x i - i) ∧
        (i / 4 ≤ x - roundDownTo x i → extendLow x i = roundDownTo x i)) ∧
    (∀ x i : ℚ, 0 < i →
      (∃ k : ℤ, extendHigh x i = i * k) ∧ x ≤ extendHigh x i ∧
        i / 4 ≤ extendHigh x i - x ∧
        (roundUpTo x i - x < i / 4 → extendHigh x i = roundUpTo x i + i) ∧
        (i / 4 ≤ roundUpTo x i - x → extendHigh x i = roundUpTo x i)) ∧
    (∀ (bb : BoundingBox) (iw ie isq inq : ℚ), expandExtended bb iw ie isq inq =
      ⟨extendLow bb.west iw, extendHigh bb.east ie, extendLow bb.south isq,
        extendHigh bb.north inq⟩) ∧
    (∀ (p : Provider) (base : List Char) (bd : BaseDesc) (bb : BoundingBox)
      (t : List Char) (i : ℚ), '+' ∉ base → parseBase base = .ok bd →
      resolveBase p bd = .ok bb → parseNumber t = some i →
      resolve p (String.mk (base ++ '+' :: 'e' :: t)) =
        validate (expandExtended bb i i i i)) ∧
    resolve jpProvider "JP+e3" = .ok ⟨120, 150, 18, 48⟩ ∧
    resolve jpProvider "JP+r3" = .ok ⟨120, 147, 18, 48⟩ := by
  refine ⟨?_, ?_, ?_, ?_, ?_, ?_⟩
  · intro x i hi
    exact ⟨extendLow_mult x i, extendLow_le x i hi, extendLow_pad x i hi,
      fun h => extendLow_eq_bump x i h, fun h => extendLow_eq_plain x i h⟩
  · intro x i hi
    exact ⟨extendHigh_mult x i, extendHigh_ge x i hi, extendHigh_pad x i hi,
      fun h => extendHigh_eq_bump x i h, fun h => extendHigh_eq_plain x i h⟩
  · intro bb iw ie isq inq
    rfl
  · intro p base bd bb t i hbp hbase hres ht
    exact resolveChars_base_mod p base bd bb .extended t (i, i, i, i) hbp
      (parseNumber_ne_nil ht) (parseNumber_no_plus ht) hbase hres
      (parseIncrements_one t i ht)
  · have h := resolveChars_base_mod jpProvider ['J', 'P'] (.iso ['J', 'P'])
      ⟨122.9, 146.9, 20.4, 45.6⟩ .extended ['3'] (3, 3, 3, 3) (by decide)
      (by decide) (by decide) rfl rfl (parseIncrements_one ['3'] 3 rfl)
    have hbridge : resolve jpProvider "JP+e3" = resolveChars jpProvider
        (['J', 'P'] ++ '+' :: modChar .extended :: ['3']) := rfl
    have hexp : expandExtended ⟨122.9, 146.9, 20.4, 45.6⟩ 3 3 3 3 =
        ⟨120, 150, 18, 48⟩ := by
      simp only [expandExtended]
      rw [extendLow_val_plain (122.9 : ℚ) 3 120
          (roundDownTo_val (122.9 : ℚ) 3 120 40 (by norm_num) (by norm_num)
            (by norm_num)) (by norm_num),
        extendHigh_val_bumped (146.9 : ℚ) 3 147
          (roundUpTo_val (146.9 : ℚ) 3 147 49 (by norm_num) (by norm_num)
            (by norm_num)) (by norm_num),
        extendLow_val_plain (20.4 : ℚ) 3 18
          (roundDownTo_val (20.4 : ℚ) 3 18 6 (by norm_num) (by norm_num)
            (by norm_num)) (by norm_num),
        extendHigh_val_plain (45.6 : ℚ) 3 48
          (roundUpTo_val (45.6 : ℚ) 3 48 16 (by norm_num) (by norm_num)
            (by norm_num)) (by norm_num)]
      norm_num
    rw [hbridge, h]
    show validate (expandExtended ⟨122.9, 146.9, 20.4, 45.6⟩ 3 3 3 3) =
      .ok ⟨120, 150, 18, 48⟩
    rw [hexp]
    exact validate_pos _ (by norm_num) (by norm_num)
  · have h := resolveChars_base_mod jpProvider ['J', 'P'] (.iso ['J', 'P'])
      ⟨122.9, 146.9, 20.4, 45.6⟩ .rounded ['3'] (3, 3, 3, 3) (by decide)
      (by decide) (by decide) rfl rfl (parseIncrements_one ['3'] 3 rfl)
    have hbridge : resolve jpProvider "JP+r3" = resolveChars jpProvider
        (['J', 'P'] ++ '+' :: modChar .rounded :: ['3']) := rfl
    have hexp : expandRounded ⟨122.9, 146.9, 20.4, 45.6⟩ 3 3 3 3 =
        ⟨120, 147, 18, 48⟩ := by
      simp only [expandRounded]
      rw [roundDownTo_val (122.9 : ℚ) 3 120 40 (by norm_num) (by norm_num)
          (by norm_num),
        roundUpTo_val (146.9 : ℚ) 3 147 49 (by norm_num) (by norm_num)
          (by norm_num),
        roundDownTo_val (20.4 : ℚ) 3 18 6 (by norm_num) (by norm_num)
          (by norm_num),
        roundUpTo_val (45.6 : ℚ) 3 48 16 (by norm_num) (by norm_num)
          (by norm_num)]
    rw [hbridge, h]
    show validate (expandRounded ⟨122.9, 146.9, 20.4, 45.6⟩ 3 3 3 3) =
      .ok ⟨120, 147, 18, 48⟩
    rw [hexp]
    exact validate_pos _ (by norm_num) (by norm_num)

theorem spec_C4_witness :
    (0 : ℚ) < 3 ∧ (3 : ℚ) / 4 ≤ 146.9 - extendLow (146.9 : ℚ) 3 ∧
      resolve jpProvider "JP+e3" = .ok ⟨120, 150, 18, 48⟩ :=
  ⟨by norm_num, (spec_C4.1 146.9 3 (by norm_num)).2.2.1, spec_C4.2.2.2.2.1⟩

/-- C5: `+R` expansion adds the increment directly to each side with no
rounding: west and south decrease by it, east and north increase by it; in
particular JP+R3 moves every side of the base bounds by exactly 3 degrees. -/
theorem spec_C5 :
    (∀ (bb : BoundingBox) (iw ie isq inq : ℚ), expandUnrounded bb iw ie isq inq =
      ⟨bb.west - iw, bb.east + ie, bb.south - isq, bb.north + inq⟩) ∧
    (∀ (p : Provider) (base : List Char) (bd : BaseDesc) (bb : BoundingBox)
      (t : List Char) (i : ℚ), '+' ∉ base → parseBase base = .ok bd →
      resolveBase p bd = .ok bb → parseNumber t = some i →
      resolve p (String.mk (base ++ '+' :: 'R' :: t)) =
        validate (expandUnrounded bb i i i i)) ∧
    resolve jpProvider "JP+R3" = .ok ⟨119.9, 149.9, 17.4, 48.6⟩ := by
  refine ⟨?_, ?_, ?_⟩
  · intro bb iw ie isq inq
    rfl
  · intro p base bd bb t i hbp hbase hres ht
    exact resolveChars_base_mod p base bd bb .unrounded t (i, i, i, i) hbp
      (parseNumber_ne_nil ht) (parseNumber_no_plus ht) hbase hres
      (parseIncrements_one t i ht)
  · have h := resolveChars_base_mod jpProvider ['J', 'P'] (.iso ['J', 'P'])
      ⟨122.9, 146.9, 20.4, 45.6⟩ .unrounded ['3'] (3, 3, 3, 3) (by decide)
      (by decide) (by decide) rfl rfl (parseIncrements_one ['3'] 3 rfl)
    have hbridge : resolve jpProvider "JP+R3" = resolveChars jpProvider
        (['J', 'P'] ++ '+' :: modChar .unrounded :: ['3']) := rfl
    have hexp : expandUnrounded ⟨122.9, 146.9, 20.4, 45.6⟩ 3 3 3 3 =
        ⟨119.9, 149.9, 17.4, 48.6⟩ := by
      simp only [expandUnrounded]
      norm_num
    rw [hbridge, h]
    show validate (expandUnrounded ⟨122.9, 146.9, 20.4, 45.6⟩ 3 3 3 3) =
      .ok ⟨119.9, 149.9, 17.4, 48.6⟩
    rw [hexp]
    exact validate_pos _ (by norm_num) (by norm_num)

theorem spec_C5_witness :
    resolve jpProvider
        (String.mk (['J', 'P'] ++ '+' :: 'R' :: ['3'])) =
      validate (expandUnrounded ⟨122.9, 146.9, 20.4, 45.6⟩ 3 3 3 3) :=
  spec_C5.2.1 jpProvider ['J', 'P'] (.iso ['J', 'P'])
    ⟨122.9, 146.9, 20.4, 45.6⟩ ['3'] 3 (by decide) rfl rfl rfl

/-- C6: expansion increments have arity-dependent meaning — one number applies
to all four sides, two numbers apply per axis (first to west and east, second
to south and north), four numbers apply to west, east, south, north in that
order — for every expansion mode. -/
theorem spec_C6 :
    (∀ (t : List Char) (i : ℚ), parseNumber t = some i →
      parseIncrements t = .ok (i, i, i, i)) ∧
    (∀ (t1 t2 : List Char) (x y : ℚ), parseNumber t1 = some x →
      parseNumber t2 = some y →
      parseIncrements (t1 ++ '/' :: t2) = .ok (x, x, y, y)) ∧
    (∀ (t1 t2 t3 t4 : List Char) (a b c d : ℚ), parseNumber t1 = some a →
      parseNumber t2 = some b → parseNumber t3 = some c →
      parseNumber t4 = some d →
      parseIncrements (mk4 t1 t2 t3 t4) = .ok (a, b, c, d)) ∧
    (∀ (bb : BoundingBox) (iw ie isq inq : ℚ),
      applyExpansion .rounded bb (iw, ie, isq, inq) =
        ⟨roundDownTo bb.west iw, roundUpTo bb.east ie, roundDownTo bb.south isq,
          roundUpTo bb.north inq⟩ ∧
      applyExpansion .unrounded bb (iw, ie, isq, inq) =
        ⟨bb.west - iw, bb.east + ie, bb.south - isq, bb.north + inq⟩ ∧
      applyExpansion .extended bb (iw, ie, isq, inq) =
        ⟨extendLow bb.west iw, extendHigh bb.east ie, extendLow bb.south isq,
          extendHigh bb.north inq⟩) ∧
    (∀ (m : ExpandMode) (p : Provider) (base : List Char) (bd : BaseDesc)
      (bb : BoundingBox) (rest : List Char) (incs : ℚ × ℚ × ℚ × ℚ),
      '+' ∉ base → ¬ rest = [] → '+' ∉ rest → parseBase base = .ok bd →
      resolveBase p bd = .ok bb → parseIncrements rest = .ok incs →
      resolve p (String.mk (base ++ '+' :: modChar m :: rest)) =
        validate (applyExpansion m bb incs)) ∧
    resolve jpProvider "JP+r3/5" = .ok ⟨120, 147, 20, 50⟩ ∧
    resolve jpProvider "JP+r3/5/7/9" = .ok ⟨120, 150, 14, 54⟩ := by
  refine ⟨?_, ?_, ?_, ?_, ?_, ?_, ?_⟩
  · intro t i h
    exact parseIncrements_one t i h
  · intro t1 t2 x y h1 h2
    exact parseIncrements_two t1 t2 x y h1 h2
  · intro t1 t2 t3 t4 a b c d h1 h2 h3 h4
    exact parseIncrements_four t1 t2 t3 t4 a b c d h1 h2 h3 h4
  · intro bb iw ie isq inq
    exact ⟨rfl, rfl, rfl⟩
  · intro m p base bd bb rest incs hbp hrest hplus hbase hres hi
    exact resolveChars_base_mod p base bd bb m rest incs hbp hrest hplus
      hbase hres hi
  · have h := resolveChars_base_mod jpProvider ['J', 'P'] (.iso ['J', 'P'])
      ⟨122.9, 146.9, 20.4, 45.6⟩ .rounded ['3', '/', '5'] (3, 3, 5, 5)
      (by decide) (by decide) (by decide) rfl rfl
      (parseIncrements_two ['3'] ['5'] 3 5 rfl rfl)
    have hbridge : resolve jpProvider "JP+r3/5" = resolveChars jpProvider
        (['J', 'P'] ++ '+' :: modChar .rounded :: ['3', '/', '5']) := rfl
    have hexp : expandRounded ⟨122.9, 146.9, 20.4, 45.6⟩ 3 3 5 5 =
        ⟨120, 147, 20, 50⟩ := by
      simp only [expandRounded]
      rw [roundDownTo_val (122.9 : ℚ) 3 120 40 (by norm_num) (by norm_num)
          (by norm_num),
        roundUpTo_val (146.9 : ℚ) 3 147 49 (by norm_num) (by norm_num)
          (by norm_num),
        roundDownTo_val (20.4 : ℚ) 5 20 4 (by norm_num) (by norm_num)
          (by norm_num),
        roundUpTo_val (45.6 : ℚ) 5 50 10 (by norm_num) (by norm_num)
          (by norm_num)]
    rw [hbridge, h]
    show validate (expandRounded ⟨122.9, 146.9, 20.4, 45.6⟩ 3 3 5 5) =
      .ok ⟨120, 147, 20, 50⟩
    rw [hexp]
    exact validate_pos _ (by norm_num) (by norm_num)
  · have h := resolveChars_base_mod jpProvider ['J', 'P'] (.iso ['J', 'P'])
      ⟨122.9, 146.9, 20.4, 45.6⟩ .rounded ['3', '/', '5', '/', '7', '/', '9']
      (3, 5, 7, 9) (by decide) (by decide) (by decide) rfl rfl
      (parseIncrements_four ['3'] ['5'] ['7'] ['9'] 3 5 7 9 rfl rfl rfl rfl)
    have hbridge : resolve jpProvider "JP+r3/5/7/9" = resolveChars jpProvider
        (['J', 'P'] ++ '+' :: modChar .rounded ::
          ['3', '/', '5', '/', '7', '/', '9']) := rfl
    have hexp : expandRounded ⟨122.9, 146.9, 20.4, 45.6⟩ 3 5 7 9 =
        ⟨120, 150, 14, 54⟩ := by
      simp only [expandRounded]
      rw [roundDownTo_val (122.9 : ℚ) 3 120 40 (by norm_num) (by norm_num)
          (by norm_num),
        roundUpTo_val (146.9 : ℚ) 5 150 30 (by norm_num) (by norm_num)
          (by norm_num),
        roundDownTo_val (20.4 : ℚ) 7 14 2 (by norm_num) (by norm_num)
          (by norm_num),
        roundUpTo_val (45.6 : ℚ) 9 54 6 (by norm_num) (by norm_num)
          (by norm_num)]
    rw [hbridge, h]
    show validate (expandRounded ⟨122.9, 146.9, 20.4, 45.6⟩ 3 5 7 9) =
      .ok ⟨120, 150, 14, 54⟩
    rw [hexp]
    exact validate_pos _ (by norm_num) (by norm_num)

theorem spec_C6_witness :
    parseIncrements (['3'] ++ '/' :: ['5']) = .ok (3, 3, 5, 5) :=
  spec_C6.2.1 ['3'] ['5'] 3 5 (by decide) (by decide)

/-- C7: resolution is all-or-nothing — every successful resolve satisfies
west < east and south < north, malformed field counts, non-numeric tokens,
wrong increment arity and post-expansion inversion give invalid-region
failures, and a provider error for an ISO code is propagated unchanged. -/
theorem spec_C7 :
    (∀ (p : Provider) (s : String) (bb : BoundingBox), resolve p s = .ok bb →
      bb.west < bb.east ∧ bb.south < bb.north) ∧
    isInvalidRegionError (resolve jpProvider "10/20/35") = true ∧
    isInvalidRegionError (resolve jpProvider "10/20/ab/45") = true ∧
    isInvalidRegionError (resolve jpProvider "JP+r3/5/7") = true ∧
    isInvalidRegionError (resolve jpProvider "10/20/35/45+R-20") = true ∧
    (∀ (p : Provider) (e : ResolveError), p ['Z', 'Z'] = .error e →
      resolve p "ZZ" = .error e) := by
  refine ⟨?_, by decide, by decide, by decide, ?_, ?_⟩
  · intro p s bb h
    exact resolve_ok_valid h
  · have hb : parseBase (mk4 ['1', '0'] ['2', '0'] ['3', '5'] ['4', '5']) =
        .ok (.nums 10 20 35 45) := by decide
    have hn : parseNumber ['-', '2', '0'] = some (-20 : ℚ) := by decide
    have h := resolveChars_base_mod jpProvider
      (mk4 ['1', '0'] ['2', '0'] ['3', '5'] ['4', '5']) (.nums 10 20 35 45)
      ⟨10, 20, 35, 45⟩ .unrounded ['-', '2', '0'] (-20, -20, -20, -20)
      (by decide) (by decide) (by decide) hb rfl
      (parseIncrements_one ['-', '2', '0'] (-20) hn)
    have hbridge : resolve jpProvider "10/20/35/45+R-20" = resolveChars jpProvider
        (mk4 ['1', '0'] ['2', '0'] ['3', '5'] ['4', '5'] ++
          '+' :: modChar .unrounded :: ['-', '2', '0']) := rfl
    rw [hbridge, h]
    show isInvalidRegionError
      (validate (expandUnrounded ⟨10, 20, 35, 45⟩ (-20) (-20) (-20) (-20))) = true
    have hexp : expandUnrounded ⟨10, 20, 35, 45⟩ (-20) (-20) (-20) (-20) =
        ⟨30, 0, 55, 25⟩ := by
      simp only [expandUnrounded]
      norm_num
    rw [hexp, validate_neg ⟨30, 0, 55, 25⟩ (by norm_num)]
    rfl
  · intro p e hp
    have hbridge : resolve p "ZZ" = resolveChars p ['Z', 'Z'] := rfl
    rw [hbridge]
    exact resolveChars_zz p e hp

theorem spec_C7_witness :
    (122.9 : ℚ) < 146.9 ∧ (20.4 : ℚ) < 45.6 :=
  spec_C7.1 jpProvider "JP" ⟨122.9, 146.9, 20.4, 45.6⟩ (by
    rw [show resolve jpProvider "JP" = validate ⟨122.9, 146.9, 20.4, 45.6⟩ from rfl]
    exact validate_pos _ (by norm_num) (by norm_num))

/-- C8: resolving a sequence of four numbers gives exactly the same bounding
box as resolving the slash-delimited string built from tokens denoting the
same four numbers. -/
theorem spec_C8 : ∀ (p : Provider) (t1 t2 t3 t4 : List Char) (a b c d : ℚ),
    parseNumber t1 = some a → parseNumber t2 = some b →
    parseNumber t3 = some c → parseNumber t4 = some d →
    resolve p (String.mk (mk4 t1 t2 t3 t4)) = resolveList [a, b, c, d] := by
  intro p t1 t2 t3 t4 a b c d h1 h2 h3 h4
  exact resolveChars_mk4 p t1 t2 t3 t4 a b c d h1 h2 h3 h4

theorem spec_C8_witness :
    resolve jpProvider (String.mk (mk4 ['1', '0'] ['2', '0'] ['3', '5'] ['4', '5'])) =
      resolveList [10, 20, 35, 45] :=
  spec_C8 jpProvider ['1', '0'] ['2', '0'] ['3', '5'] ['4', '5'] 10 20 35 45
    (by decide) (by decide) (by decide) (by decide)

/-- C9: resolve is idempotent on its own output — resolving the four-number
string form of any successfully resolved bounding box returns that box. -/
theorem spec_C9 : ∀ (p : Provider) (s : String) (bb : BoundingBox)
    (p2 : Provider) (t1 t2 t3 t4 : List Char),
    resolve p s = .ok bb →
    parseNumber t1 = some bb.west → parseNumber t2 = some bb.east →
    parseNumber t3 = some bb.south → parseNumber t4 = some bb.north →
    resolve p2 (String.mk (mk4 t1 t2 t3 t4)) = .ok bb := by
  intro p s bb p2 t1 t2 t3 t4 hres h1 h2 h3 h4
  have h := resolveChars_mk4 p2 t1 t2 t3 t4 bb.west bb.east bb.south bb.north
    h1 h2 h3 h4
  have hv := resolve_ok_valid hres
  have heta : (⟨bb.west, bb.east, bb.south, bb.north⟩ : BoundingBox) = bb := rfl
  rw [heta] at h
  exact h.trans (validate_pos bb hv.1 hv.2)

theorem spec_C9_witness :
    resolve jpProvider (String.mk (mk4 ['1', '0'] ['2', '0'] ['3', '5'] ['4', '5'])) =
      .ok ⟨10, 20, 35, 45⟩ :=
  spec_C9 jpProvider "10/20/35/45" ⟨10, 20, 35, 45⟩ jpProvider
    ['1', '0'] ['2', '0'] ['3', '5'] ['4', '5'] (by decide) (by decide)
    (by decide) (by decide) (by decide)

/-- C10: the plotting-data region list [lon.min()-1, lon.max()+1, lat.min()-1,
lat.max()+1] over a non-empty dataset always satisfies the bounding-box
invariant — first element strictly below the second, third strictly below the
fourth — because the minimum never exceeds the maximum and each side is padded
outward by one degree. -/
theorem spec_C10 : ∀ (lon0 lat0 : ℚ) (lons lats : List ℚ),
    plotRegion lon0 lons lat0 lats =
      [seriesMin lon0 lons - 1, seriesMax lon0 lons + 1,
        seriesMin lat0 lats - 1, seriesMax lat0 lats + 1] ∧
    seriesMin lon0 lons - 1 < seriesMax lon0 lons + 1 ∧
    seriesMin lat0 lats - 1 < seriesMax lat0 lats + 1 ∧
    resolveList (plotRegion lon0 lons lat0 lats) =
      .ok ⟨seriesMin lon0 lons - 1, seriesMax lon0 lons + 1,
        seriesMin lat0 lats - 1, seriesMax lat0 lats + 1⟩ := by
  intro lon0 lat0 lons lats
  have hlon : seriesMin lon0 lons - 1 < seriesMax lon0 lons + 1 := by
    have h1 := seriesMin_le lon0 lons
    have h2 := le_seriesMax lon0 lons
    linarith
  have hlat : seriesMin lat0 lats - 1 < seriesMax lat0 lats + 1 := by
    have h1 := seriesMin_le lat0 lats
    have h2 := le_seriesMax lat0 lats
    linarith
  refine ⟨rfl, hlon, hlat, ?_⟩
  have hred : resolveList (plotRegion lon0 lons lat0 lats) =
      validate ⟨seriesMin lon0 lons - 1, seriesMax lon0 lons + 1,
        seriesMin lat0 lats - 1, seriesMax lat0 lats + 1⟩ := rfl
  rw [hred]
  exact validate_pos _ hlon hlat
